import Mathlib

/-!
Shallow embedding of the resumable HTTP range-request stream reader
(package `grab`, file `grab.go`): the `Body` state machine with its
`Read`/`Seek`/`Close`/`VerifyCopiedData` operations, the retrying request
executor `retry`, the lazy reconnection `nextReader`, and the digest-header
parser `tryParseETag`.

The network is modelled as an oracle (`Env`): it decides, for each underlying
read, how many bytes the live connection delivers and whether the read ends
with a nil error, `io.EOF`, or a transport error; and, for each HTTP attempt,
whether the request round-trip succeeds.  A successful connection always
serves genuine bytes of the fixed resource `content`, starting at the offset
named in the request's `Range` header (absent header: offset 0); the response
to a request carries a `Content-Range` header exactly when the request carried
a `Range` header, following standard HTTP range semantics.
-/

namespace Grab

/-- The error values the stream can surface, mirroring the error values of
`grab.go`: `syscall.EINVAL`, `io.EOF` (returned as an error value by `Read`),
the formatted boundary / seek / verification errors, the wrapped
"request failed after n attempts" from `retry`, the "missing Content-Range
header in response" from `nextReader`, the "unable to read from request body
after n attempts" from `Body.read`, and a generic underlying (non-EOF) read
error propagated unchanged. -/
inductive GErr where
  | einval
  | eof
  | pastBoundary (c t : Int)
  | seekBefore
  | requestFailed (n : Nat)
  | missingContentRange
  | readExhausted (n : Nat)
  | readErr
  | verifySeeked
  | verifyMismatch (etag digest : String)
deriving DecidableEq, Repr

/-- A live underlying network connection (an open `resp.Body`): it serves the
resource sequentially from its own offset `pos`, fixed at request time by the
`Range` header and advanced by every byte it delivers. -/
structure Conn where
  pos : Nat
deriving DecidableEq, Repr

/-- The `Body` struct of `grab.go` (its pure state; the live connection is
modelled by `Conn`, the md5 accumulator by the list of bytes fed to it since
the last reset, and the cached request's current `Range` header by
`reqRange`). -/
structure Body where
  etag : Option String := none
  n : Nat := 5
  reqRange : Option Int := none
  body : Option Conn := none
  cPos : Int := 0
  tPos : Int := 0
  closed : Bool := false
  seeked : Bool := false
  err : Option GErr := none
  md5acc : List Nat := []
deriving DecidableEq, Repr

/-- Outcome flavour of one underlying `resp.Body.Read`: nil error, `io.EOF`,
or a non-EOF transport error. Chosen by the environment. -/
inductive RSig where
  | ok
  | eofSig
  | errSig
deriving DecidableEq, Repr

/-- The network oracle: `reads k` gives the byte count offered and the error
flavour of the `k`-th underlying read overall (the count is clamped by the
buffer space and by the bytes remaining on the connection); `opens k` tells
whether the `k`-th HTTP attempt (`c.Do` plus `checkResponse`) succeeds. -/
structure Env where
  reads : Nat → Nat × RSig
  opens : Nat → Bool

/-- A machine: the `Body` state plus the oracle cursors and the log of all
bytes handed to the caller so far, in order. -/
structure M where
  b : Body
  readIdx : Nat
  openIdx : Nat
  delivered : List Nat
deriving DecidableEq, Repr

/-- The attempt loop of `retry` (grab.go:37-54): up to `i` attempts, each
consuming one oracle index; a successful attempt yields a connection serving
the resource from `start`. -/
def retry (env : Env) (start : Nat) : Nat → Nat → Option Conn × Nat
  | 0, oi => (none, oi)
  | Nat.succ i, oi =>
    if env.opens oi then (some ⟨start⟩, oi + 1) else retry env start i (oi + 1)

/-- `Body.nextReader` (grab.go:185-207): if `cPos > 0` the `Range` header of
the cached request is set to `bytes=cPos-` (otherwise the header keeps its
previous value — `retry` only sets it when given an offset); the request is
retried up to `n` times; on success the response must carry `Content-Range`
(present exactly when the request was ranged), else the new body is closed
and a hard error returned; otherwise the connection becomes the active body. -/
def nextReader (env : Env) (m : M) : Option GErr × M :=
  let rng : Option Int := if 0 < m.b.cPos then some m.b.cPos else none
  let newRange : Option Int := match rng with | some v => some v | none => m.b.reqRange
  let r := retry env ((newRange.getD 0).toNat) m.b.n m.openIdx
  match r.1 with
  | none =>
      (some (GErr.requestFailed m.b.n),
       { m with openIdx := r.2, b := { m.b with reqRange := newRange } })
  | some conn =>
      if newRange = none then
        (some GErr.missingContentRange,
         { m with openIdx := r.2, b := { m.b with reqRange := newRange } })
      else
        (none, { m with openIdx := r.2, b := { m.b with reqRange := newRange, body := some conn } })

/-- One underlying `b.tee.Read(p[n:])` (grab.go:219) together with the two
state updates fused to it in the source: `b.cPos += int64(rn)` (grab.go:220)
and the `TeeReader` forwarding every delivered byte to the md5 accumulator
(grab.go:204).  The environment offers a byte count and an error flavour; the
count is clamped by the free buffer `space` and by the bytes the connection
still holds; the delivered bytes are the resource bytes at the connection's
offset. -/
def teeRead (content : List Nat) (env : Env) (m : M) (space : Nat) : Nat × RSig × M :=
  match m.b.body with
  | none => (0, RSig.errSig, { m with readIdx := m.readIdx + 1 })
  | some conn =>
    let c := min (env.reads m.readIdx).1 (min space (content.length - conn.pos))
    let bs := (content.drop conn.pos).take c
    ((c, (env.reads m.readIdx).2,
      { m with
        readIdx := m.readIdx + 1,
        delivered := m.delivered ++ bs,
        b := { m.b with
               body := some ⟨conn.pos + c⟩,
               cPos := m.b.cPos + c,
               md5acc := m.b.md5acc ++ bs } }))

/-- The Go error value returned by one underlying read, per flavour. -/
def sigErr : RSig → Option GErr
  | RSig.ok => none
  | RSig.eofSig => some GErr.eof
  | RSig.errSig => some GErr.readErr

/-- `Body.read` (grab.go:216-241): up to `i` attempts (called with `b.n`).
Each attempt performs one underlying read and advances `cPos`; then, in
source order: if the error is not `io.EOF` and `cPos == tPos`, return the
accumulated count with that error; if the error is nil or `io.EOF`, return;
otherwise close and discard the active body, reopen via `nextReader`
(returning its error if it fails) and continue with the remaining buffer.
Exhausting the attempts returns the "unable to read … after n attempts"
error. -/
def read (content : List Nat) (env : Env) : Nat → M → Nat → Nat → Nat × Option GErr × M
  | 0, m, _, acc => (acc, some (GErr.readExhausted m.b.n), m)
  | Nat.succ i, m, space, acc =>
    let t := teeRead content env m space
    if t.2.1 ≠ RSig.eofSig ∧ t.2.2.b.cPos = t.2.2.b.tPos then
      (acc + t.1, sigErr t.2.1, t.2.2)
    else if t.2.1 = RSig.ok then (acc + t.1, none, t.2.2)
    else if t.2.1 = RSig.eofSig then (acc + t.1, some GErr.eof, t.2.2)
    else
      let nr := nextReader env { t.2.2 with b := { t.2.2.b with body := none } }
      match nr.1 with
      | some e => (acc + t.1, some e, nr.2)
      | none => read content env i nr.2 (space - t.1) (acc + t.1)

/-- The `for nw < len(p)` loop of `Body.Read` (grab.go:265-284), with `fuel`
bounding the number of iterations of the (source-side unbounded) loop — a
`none` result means the loop was still running when the fuel ran out.  On
`io.EOF` from `Body.read`: discard the active body; if `cPos == tPos` report
end-of-data; otherwise reopen at the current position and continue.  A
non-EOF error is recorded as the sticky error and returned. -/
def readWhile (content : List Nat) (env : Env) : Nat → M → Nat → Nat → Option (Nat × Option GErr × M)
  | 0, _, _, _ => none
  | Nat.succ fuel, m, plen, nw =>
    if nw < plen then
      let r := read content env m.b.n m (plen - nw) 0
      if r.2.1 = some GErr.eof then
        let m2 : M := { r.2.2 with b := { r.2.2.b with body := none } }
        if m2.b.cPos = m2.b.tPos then some (nw + r.1, some GErr.eof, m2)
        else
          let nr := nextReader env m2
          match nr.1 with
          | some e => some (nw + r.1, some e, nr.2)
          | none => readWhile content env fuel nr.2 plen (nw + r.1)
      else
        match r.2.1 with
        | some e => some (nw + r.1, some e, { r.2.2 with b := { r.2.2.b with err := some e } })
        | none => readWhile content env fuel r.2.2 plen (nw + r.1)
    else some (nw, none, m)

/-- `Body.Read` (grab.go:243-285): guards in source order — closed handle,
sticky error, `cPos == tPos+1` (end-of-data signal), `cPos > tPos+1` (hard
past-boundary error); then lazy reopen when no body is active, then the
buffered read loop. -/
def Read (content : List Nat) (env : Env) (fuel : Nat) (m : M) (plen : Nat) :
    Option (Nat × Option GErr × M) :=
  if m.b.closed then some (0, some GErr.einval, m)
  else
    match m.b.err with
    | some e => some (0, some e, m)
    | none =>
      if m.b.cPos = m.b.tPos + 1 then some (0, some GErr.eof, m)
      else if m.b.tPos + 1 < m.b.cPos then some (0, some (GErr.pastBoundary m.b.cPos m.b.tPos), m)
      else
        let lz := if m.b.body = none then nextReader env m else ((none : Option GErr), m)
        match lz.1 with
        | some e => some (0, some e, lz.2)
        | none => readWhile content env fuel lz.2 plen 0

/-- The sequential driver (`io.Copy` as used by the tests): repeated `Read`
calls until an end-of-data signal (`some (none, ·)`), an error
(`some (some e, ·)`), or fuel exhaustion (`none`). -/
def copyAll (content : List Nat) (env : Env) : Nat → M → Nat → Option (Option GErr × M)
  | 0, _, _ => none
  | Nat.succ fuel, m, plen =>
    match Read content env (Nat.succ fuel) m plen with
    | none => none
    | some r =>
      if r.2.1 = some GErr.eof then some (none, r.2.2)
      else
        match r.2.1 with
        | some e => some (some e, r.2.2)
        | none => copyAll content env fuel r.2.2 plen

/-- `tryParseETag` (grab.go:56-68): an empty header yields nothing; a header
whose length is not exactly 32 yields nothing; otherwise the header itself is
recorded as the expected digest. -/
def tryParseETag (header : String) : Option String :=
  if header = "" then none
  else if header.length ≠ 32 then none
  else some header

/-- The machine produced by a successful `Open` (grab.go:71-114): the initial
non-ranged request succeeded, so the active body is a connection at offset 0,
`tPos` is the declared content length, the md5 accumulator is fresh, the
expected digest is parsed from the `Etag` response header, and no `Range`
header has ever been set on the cached request. -/
def openMachine (content : List Nat) (attempts : Nat) (etagHeader : String) : M :=
  { b := { etag := tryParseETag etagHeader, n := attempts, reqRange := none,
           body := some ⟨0⟩, cPos := 0, tPos := (content.length : Int), closed := false,
           seeked := false, err := none, md5acc := [] },
    readIdx := 0, openIdx := 0, delivered := [] }

/-- `Body.Close` (grab.go:148-157): a second close returns `syscall.EINVAL`;
the first close marks the stream closed and closes the active connection if
any (modelled as error-free), leaving the `body` field itself untouched as in
the source. -/
def Close (b : Body) : Option GErr × Body :=
  if b.closed then (some GErr.einval, b)
  else ((none : Option GErr), { b with closed := true })

/-- The origin argument of `Seek` (`io.SeekStart` / `io.SeekCurrent` /
`io.SeekEnd`). -/
inductive Whence where
  | seekStart
  | seekCurrent
  | seekEnd
deriving DecidableEq, Repr

/-- The absolute target position computed by the `switch` of `Body.Seek`
(grab.go:292-300). -/
def seekPos (b : Body) (offset : Int) (w : Whence) : Int :=
  match w with
  | Whence.seekCurrent => b.cPos + offset
  | Whence.seekStart => 0 + offset
  | Whence.seekEnd => b.tPos + offset

/-- `Body.Seek` (grab.go:291-324): a negative target is a hard error leaving
the state untouched; a target equal to the current position returns at once
with no state change; otherwise the seeked flag and md5 accumulator are
updated (reset and cleared at target 0, flag set at any other target), the
position is moved, and any active body is closed and discarded.  `Seek`
performs no network operation and never inspects `closed` or `err`. -/
def Seek (b : Body) (offset : Int) (w : Whence) : Int × Option GErr × Body :=
  let pos := seekPos b offset w
  if pos < 0 then (b.cPos, some GErr.seekBefore, b)
  else if b.cPos = pos then (b.cPos, none, b)
  else
    let b1 := if pos = 0 then { b with seeked := false, md5acc := ([] : List Nat) }
              else { b with seeked := true }
    let b2 := { b1 with cPos := pos }
    let b3 := if b2.body ≠ none then { b2 with body := none } else b2
    (b3.cPos, none, b3)

/-- `Seek` lifted to a machine: it touches neither oracle cursor (no network
round trip) nor the delivered log. -/
def SeekM (m : M) (offset : Int) (w : Whence) : Int × Option GErr × M :=
  match Seek m.b offset w with
  | (r, e, b1) => (r, e, { m with b := b1 })

/-- Modelled from the spec: the MD5 digest rendering of `crypto/md5` together
with `fmt.Sprintf("%x", ·)` is outside `src/`; the spec describes it as an
"MD5-class" whole-object digest rendered as 32 lowercase hex characters.  It
is modelled as a deterministic 128-bit fold of the accumulated bytes rendered
as exactly 32 lowercase hex characters. -/
def hexDigitChar (v : Nat) : Char :=
  if v < 10 then Char.ofNat (48 + v) else Char.ofNat (97 + (v - 10))

/-- Big-endian fixed-width lowercase hex rendering. -/
def hexRender : Nat → Nat → List Char
  | 0, _ => []
  | Nat.succ w, v => hexRender w (v / 16) ++ [hexDigitChar (v % 16)]

/-- Modelled from the spec: digest of the accumulated bytes as a 32-character
lowercase hex string (stand-in for `fmt.Sprintf("%x", b.md5.Sum(nil))`). -/
def md5hex (acc : List Nat) : String :=
  ⟨hexRender 32 (acc.foldl (fun h x => (h * 131 + x + 1) % (2 ^ 128)) 7)⟩

/-- `Body.VerifyCopiedData` (grab.go:171-183): nothing to verify without a
recorded ETag; a seeked stream cannot be verified; otherwise the rendered
digest of the accumulated bytes is compared with the recorded ETag, a
mismatch naming both values. -/
def VerifyCopiedData (b : Body) : Option GErr :=
  match b.etag with
  | none => none
  | some e =>
    if b.seeked then some GErr.verifySeeked
    else if e = md5hex b.md5acc then none
    else some (GErr.verifyMismatch e (md5hex b.md5acc))

/-!
Delivery invariant: the bytes handed to the caller so far are exactly the
first `delivered.length` bytes of the resource, `cPos` counts them, any live
connection stands at exactly that offset, any `Range` header ever set names a
positive offset not beyond `cPos`, and the sticky error is never the
end-of-data signal.
-/

/-- The state invariant of a sequentially consumed stream. -/
def Inv (content : List Nat) (m : M) : Prop :=
  m.b.tPos = (content.length : Int)
  ∧ m.b.cPos = (m.delivered.length : Int)
  ∧ m.delivered = content.take m.delivered.length
  ∧ (∀ conn : Conn, m.b.body = some conn → conn.pos = m.delivered.length)
  ∧ (∀ v : Int, m.b.reqRange = some v → 0 < v ∧ v ≤ m.b.cPos)
  ∧ m.b.err ≠ some GErr.eof

theorem take_self_len_le {d content : List Nat} (h : d = content.take d.length) :
    d.length ≤ content.length := by
  have h1 : d.length = min d.length content.length := by
    conv_lhs => rw [h]
    simp
  exact min_eq_left_iff.mp h1.symm

theorem retry_some {env : Env} {start : Nat} :
    ∀ {i oi : Nat} {conn : Conn}, (retry env start i oi).1 = some conn → conn = ⟨start⟩ := by
  intro i
  induction i with
  | zero => intro oi conn h; simp [retry] at h
  | succ k ih =>
    intro oi conn h
    by_cases ho : env.opens oi
    · simp [retry, ho] at h
      exact h.symm
    · simp [retry, ho] at h
      exact ih h

theorem Inv_teeRead {content : List Nat} {env : Env} {m : M} {space : Nat}
    (h : Inv content m) : Inv content (teeRead content env m space).2.2 := by
  obtain ⟨b, ri, oi, d⟩ := m
  obtain ⟨etag, n, rr, bd, cp, tp, cl, sk, er, md⟩ := b
  obtain ⟨ht, hc, hd, hb, hr, he⟩ := h
  dsimp only at ht hc hd hb hr he
  cases bd with
  | none => exact ⟨ht, hc, hd, by intro conn hx; exact hb conn hx, hr, he⟩
  | some conn =>
    have hpos : conn.pos = d.length := hb conn rfl
    have hlen : d.length ≤ content.length := take_self_len_le hd
    show Inv content
      { b := { etag := etag, n := n, reqRange := rr,
               body := some ⟨conn.pos + min (env.reads ri).1 (min space (content.length - conn.pos))⟩,
               cPos := cp + (min (env.reads ri).1 (min space (content.length - conn.pos)) : Nat),
               tPos := tp, closed := cl, seeked := sk, err := er,
               md5acc := md ++ ((content.drop conn.pos).take
                 (min (env.reads ri).1 (min space (content.length - conn.pos)))) },
        readIdx := ri + 1, openIdx := oi,
        delivered := d ++ ((content.drop conn.pos).take
          (min (env.reads ri).1 (min space (content.length - conn.pos)))) }
    set c := min (env.reads ri).1 (min space (content.length - conn.pos)) with hcdef
    have hcle : c ≤ content.length - conn.pos :=
      le_trans (Nat.min_le_right _ _) (Nat.min_le_right _ _)
    have hbs : ((content.drop conn.pos).take c).length = c := by
      simp only [List.length_take, List.length_drop]
      exact Nat.min_eq_left hcle
    refine ⟨ht, ?_, ?_, ?_, ?_, he⟩
    · show cp + (c : Int) = ((d ++ (content.drop conn.pos).take c).length : Int)
      rw [List.length_append, hbs, hc]
      push_cast
      ring
    · show d ++ (content.drop conn.pos).take c =
        content.take (d ++ (content.drop conn.pos).take c).length
      rw [List.length_append, hbs, hpos, List.take_add, ← hd]
    · intro conn' hx
      have hx2 : Conn.mk (conn.pos + c) = conn' := Option.some_inj.mp hx
      rw [← hx2]
      show conn.pos + c = (d ++ (content.drop conn.pos).take c).length
      rw [List.length_append, hbs, hpos]
    · intro v hv
      obtain ⟨h1, h2⟩ := hr v hv
      refine ⟨h1, ?_⟩
      show v ≤ cp + (c : Int)
      omega

theorem Inv_nextReader {content : List Nat} {env : Env} {m : M} (h : Inv content m) :
    Inv content (nextReader env m).2 := by
  obtain ⟨b, ri, oi, d⟩ := m
  obtain ⟨etag, n, rr, bd, cp, tp, cl, sk, er, md⟩ := b
  obtain ⟨ht, hc, hd, hb, hr, he⟩ := h
  dsimp only at ht hc hd hb hr he
  by_cases hcp : (0:Int) < cp
  · simp only [nextReader, hcp, if_true]
    dsimp only [Option.getD]
    rcases hret : (retry env cp.toNat n oi).1 with _ | conn
    · simp only [hret]
      exact ⟨ht, hc, hd, by intro c2 hx; exact hb c2 hx, by intro v hv; cases hv; exact ⟨hcp, le_refl _⟩, he⟩
    · have hcn : conn = ⟨cp.toNat⟩ := retry_some hret
      simp only [hret, hcn]
      have : ¬ ((some cp : Option Int) = none) := by simp
      simp only [this, if_false]
      refine ⟨ht, hc, hd, ?_, ?_, he⟩
      · intro c2 hx
        have : Conn.mk cp.toNat = c2 := Option.some_inj.mp hx
        rw [← this]
        show cp.toNat = d.length
        rw [hc]
        exact Int.toNat_natCast _
      · intro v hv
        cases hv
        exact ⟨hcp, le_refl _⟩
  · have hcp0 : cp = (d.length : Int) := hc
    have hcpz : cp = 0 := le_antisymm (not_lt.mp hcp) (by rw [hcp0]; exact Int.natCast_nonneg _)
    have hrrn : rr = none := by
      cases hrr : rr with
      | none => rfl
      | some v =>
        obtain ⟨h1, h2⟩ := hr v hrr
        rw [hcpz] at h2
        omega
    subst hrrn
    simp only [nextReader, hcp, if_false]
    dsimp only [Option.getD, Int.toNat_zero]
    rcases hret : (retry env 0 n oi).1 with _ | conn
    · simp only [hret]
      refine ⟨ht, hc, hd, ?_, ?_, he⟩
      · intro c2 hx; exact hb c2 hx
      · intro v hv; cases hv
    · simp only [hret, if_pos rfl]
      refine ⟨ht, hc, hd, ?_, ?_, he⟩
      · intro c2 hx; exact hb c2 hx
      · intro v hv; cases hv

theorem Inv_bodyNone {content : List Nat} {m : M} (h : Inv content m) :
    Inv content { m with b := { m.b with body := none } } := by
  obtain ⟨ht, hc, hd, _, hr, he⟩ := h
  refine ⟨ht, hc, hd, ?_, hr, he⟩
  intro c hx
  cases hx

/-- Fields of the stream state an underlying read never touches; the md5
accumulator and the delivered log are appended the same byte slice. -/
theorem teeRead_frame (content : List Nat) (env : Env) (m : M) (space : Nat) :
    (teeRead content env m space).2.2.b.err = m.b.err
    ∧ (teeRead content env m space).2.2.b.closed = m.b.closed
    ∧ (teeRead content env m space).2.2.b.n = m.b.n
    ∧ (teeRead content env m space).2.2.b.seeked = m.b.seeked
    ∧ (teeRead content env m space).2.2.b.tPos = m.b.tPos
    ∧ (teeRead content env m space).2.2.b.reqRange = m.b.reqRange
    ∧ (teeRead content env m space).2.2.b.etag = m.b.etag
    ∧ ∃ ds, (teeRead content env m space).2.2.b.md5acc = m.b.md5acc ++ ds
          ∧ (teeRead content env m space).2.2.delivered = m.delivered ++ ds := by
  unfold teeRead
  rcases m.b.body with _ | conn
  · exact ⟨rfl, rfl, rfl, rfl, rfl, rfl, rfl, [], by simp, by simp⟩
  · exact ⟨rfl, rfl, rfl, rfl, rfl, rfl, rfl, _, rfl, rfl⟩

/-- Fields of the stream state a reconnection never touches. -/
theorem nextReader_frame (env : Env) (m : M) :
    (nextReader env m).2.b.err = m.b.err
    ∧ (nextReader env m).2.b.closed = m.b.closed
    ∧ (nextReader env m).2.b.n = m.b.n
    ∧ (nextReader env m).2.b.seeked = m.b.seeked
    ∧ (nextReader env m).2.b.tPos = m.b.tPos
    ∧ (nextReader env m).2.b.cPos = m.b.cPos
    ∧ (nextReader env m).2.b.etag = m.b.etag
    ∧ (nextReader env m).2.b.md5acc = m.b.md5acc
    ∧ (nextReader env m).2.delivered = m.delivered := by
  unfold nextReader
  dsimp only
  split <;> (try split) <;> (try split) <;>
    exact ⟨rfl, rfl, rfl, rfl, rfl, rfl, rfl, rfl, rfl⟩

theorem Inv_read {content : List Nat} {env : Env} :
    ∀ (i : Nat) (m : M) (space acc : Nat), Inv content m →
      Inv content (read content env i m space acc).2.2 := by
  intro i
  induction i with
  | zero => intro m space acc h; exact h
  | succ k ih =>
    intro m space acc h
    unfold read
    dsimp only
    split
    · exact Inv_teeRead h
    · split
      · exact Inv_teeRead h
      · split
        · exact Inv_teeRead h
        · split
          · exact Inv_nextReader (Inv_bodyNone (Inv_teeRead h))
          · exact ih _ _ _ (Inv_nextReader (Inv_bodyNone (Inv_teeRead h)))

theorem read_frame {content : List Nat} {env : Env} :
    ∀ (i : Nat) (m : M) (space acc : Nat),
      (read content env i m space acc).2.2.b.err = m.b.err
      ∧ (read content env i m space acc).2.2.b.closed = m.b.closed
      ∧ (read content env i m space acc).2.2.b.n = m.b.n
      ∧ (read content env i m space acc).2.2.b.seeked = m.b.seeked
      ∧ (read content env i m space acc).2.2.b.tPos = m.b.tPos
      ∧ (read content env i m space acc).2.2.b.etag = m.b.etag
      ∧ ∃ ds, (read content env i m space acc).2.2.b.md5acc = m.b.md5acc ++ ds
            ∧ (read content env i m space acc).2.2.delivered = m.delivered ++ ds := by
  intro i
  induction i with
  | zero =>
    intro m space acc
    exact ⟨rfl, rfl, rfl, rfl, rfl, rfl, [], by simp [read], by simp [read]⟩
  | succ k ih =>
    intro m space acc
    obtain ⟨te, tc, tn, ts, tt, tr, tg, ds1, tm, td⟩ :=
      teeRead_frame content env m space
    unfold read
    dsimp only
    split
    · exact ⟨te, tc, tn, ts, tt, tg, ds1, tm, td⟩
    · split
      · exact ⟨te, tc, tn, ts, tt, tg, ds1, tm, td⟩
      · split
        · exact ⟨te, tc, tn, ts, tt, tg, ds1, tm, td⟩
        · obtain ⟨ne, nc, nn, ns, nt, ncp, ng, nm, nd⟩ :=
            nextReader_frame env
              { (teeRead content env m space).2.2 with
                b := { (teeRead content env m space).2.2.b with body := none } }
          split
          · exact ⟨ne.trans te, nc.trans tc, nn.trans tn, ns.trans ts, nt.trans tt,
              ng.trans tg, ds1, nm.trans tm, nd.trans td⟩
          · obtain ⟨re, rc, rn, rs, rt, rg, ds2, rm, rd⟩ := ih _ (space - _) (acc + _)
            refine ⟨re.trans (ne.trans te), rc.trans (nc.trans tc), rn.trans (nn.trans tn),
              rs.trans (ns.trans ts), rt.trans (nt.trans tt), rg.trans (ng.trans tg),
              ds1 ++ ds2, ?_, ?_⟩
            · rw [rm, nm, tm, List.append_assoc]
            · rw [rd, nd, td, List.append_assoc]

/-- A reconnection never reports the end-of-data signal as its error. -/
theorem nextReader_err_ne (env : Env) (m : M) :
    (nextReader env m).1 ≠ some GErr.eof := by
  unfold nextReader
  dsimp only
  split <;> (try split) <;> (try split) <;> simp

theorem readWhile_spec {content : List Nat} {env : Env} :
    ∀ (fuel : Nat) (m : M) (plen nw : Nat) (res : Nat × Option GErr × M),
      Inv content m → readWhile content env fuel m plen nw = some res →
      Inv content res.2.2 ∧ (res.2.1 = some GErr.eof → res.2.2.b.cPos = res.2.2.b.tPos) := by
  intro fuel
  induction fuel with
  | zero => intro m plen nw res _ h; cases h
  | succ k ih =>
    intro m plen nw res hInv h
    unfold readWhile at h
    dsimp only at h
    by_cases hlt : nw < plen
    · rw [if_pos hlt] at h
      have hr := @Inv_read content env m.b.n m (plen - nw) 0
      specialize hr hInv
      by_cases heof : (read content env m.b.n m (plen - nw) 0).2.1 = some GErr.eof
      · rw [if_pos heof] at h
        by_cases hend :
            ({ (read content env m.b.n m (plen - nw) 0).2.2 with
               b := { (read content env m.b.n m (plen - nw) 0).2.2.b with body := none } } : M).b.cPos
            = ({ (read content env m.b.n m (plen - nw) 0).2.2 with
               b := { (read content env m.b.n m (plen - nw) 0).2.2.b with body := none } } : M).b.tPos
        · rw [if_pos hend] at h
          cases h
          exact ⟨Inv_bodyNone hr, fun _ => hend⟩
        · rw [if_neg hend] at h
          rcases hnr : (nextReader env
              { (read content env m.b.n m (plen - nw) 0).2.2 with
                b := { (read content env m.b.n m (plen - nw) 0).2.2.b with body := none } }).1
            with _ | e
          · rw [hnr] at h
            dsimp only at h
            exact ih _ _ _ _ (Inv_nextReader (Inv_bodyNone hr)) h
          · rw [hnr] at h
            dsimp only at h
            cases h
            refine ⟨Inv_nextReader (Inv_bodyNone hr), ?_⟩
            intro hx
            dsimp only at hx
            rw [hx] at hnr
            exact absurd hnr (nextReader_err_ne env _)
        -- the reconnection path after a premature end of the underlying stream
      · rw [if_neg heof] at h
        rcases he2 : (read content env m.b.n m (plen - nw) 0).2.1 with _ | e
        · rw [he2] at h
          dsimp only at h
          exact ih _ _ _ _ hr h
        · rw [he2] at h
          dsimp only at h
          cases h
          refine ⟨?_, ?_⟩
          · obtain ⟨ht, hc, hd, hb, hrr, _⟩ := hr
            refine ⟨ht, hc, hd, hb, hrr, ?_⟩
            show some e ≠ some GErr.eof
            rw [← he2]
            exact heof
          · intro hx
            dsimp only at hx
            rw [hx] at he2
            rw [he2] at heof
            exact absurd rfl heof
    · rw [if_neg hlt] at h
      cases h
      exact ⟨hInv, by intro hx; cases hx⟩

theorem readWhile_err {content : List Nat} {env : Env} :
    ∀ (fuel : Nat) (m : M) (plen nw : Nat) (res : Nat × Option GErr × M),
      readWhile content env fuel m plen nw = some res →
      res.2.2.b.err = m.b.err ∨ res.2.2.b.err = res.2.1 := by
  intro fuel
  induction fuel with
  | zero => intro m plen nw res h; cases h
  | succ k ih =>
    intro m plen nw res h
    unfold readWhile at h
    dsimp only at h
    by_cases hlt : nw < plen
    · rw [if_pos hlt] at h
      obtain ⟨re, -, -, -, -, -, -, -, -⟩ := @read_frame content env m.b.n m (plen - nw) 0
      by_cases heof : (read content env m.b.n m (plen - nw) 0).2.1 = some GErr.eof
      · rw [if_pos heof] at h
        split at h
        · cases h
          exact Or.inl re
        · rcases hnr : (nextReader env
              { (read content env m.b.n m (plen - nw) 0).2.2 with
                b := { (read content env m.b.n m (plen - nw) 0).2.2.b with body := none } }).1
            with _ | e
          · rw [hnr] at h
            dsimp only at h
            obtain ⟨ne, -, -, -, -, -, -, -, -⟩ := nextReader_frame env
              { (read content env m.b.n m (plen - nw) 0).2.2 with
                b := { (read content env m.b.n m (plen - nw) 0).2.2.b with body := none } }
            rcases ih _ _ _ _ h with h1 | h1
            · exact Or.inl (h1.trans (ne.trans re))
            · exact Or.inr h1
          · rw [hnr] at h
            dsimp only at h
            cases h
            obtain ⟨ne, -, -, -, -, -, -, -, -⟩ := nextReader_frame env
              { (read content env m.b.n m (plen - nw) 0).2.2 with
                b := { (read content env m.b.n m (plen - nw) 0).2.2.b with body := none } }
            exact Or.inl (ne.trans re)
      · rw [if_neg heof] at h
        rcases he2 : (read content env m.b.n m (plen - nw) 0).2.1 with _ | e
        · rw [he2] at h
          dsimp only at h
          rcases ih _ _ _ _ h with h1 | h1
          · exact Or.inl (h1.trans re)
          · exact Or.inr h1
        · rw [he2] at h
          dsimp only at h
          cases h
          exact Or.inr rfl
    · rw [if_neg hlt] at h
      cases h
      exact Or.inl rfl

theorem readWhile_md5 {content : List Nat} {env : Env} :
    ∀ (fuel : Nat) (m : M) (plen nw : Nat) (res : Nat × Option GErr × M),
      readWhile content env fuel m plen nw = some res →
      ∃ ds, res.2.2.b.md5acc = m.b.md5acc ++ ds ∧ res.2.2.delivered = m.delivered ++ ds := by
  intro fuel
  induction fuel with
  | zero => intro m plen nw res h; cases h
  | succ k ih =>
    intro m plen nw res h
    unfold readWhile at h
    dsimp only at h
    by_cases hlt : nw < plen
    · rw [if_pos hlt] at h
      obtain ⟨-, -, -, -, -, -, ds1, rm, rd⟩ :=
        @read_frame content env m.b.n m (plen - nw) 0
      by_cases heof : (read content env m.b.n m (plen - nw) 0).2.1 = some GErr.eof
      · rw [if_pos heof] at h
        split at h
        · cases h
          exact ⟨ds1, rm, rd⟩
        · rcases hnr : (nextReader env
              { (read content env m.b.n m (plen - nw) 0).2.2 with
                b := { (read content env m.b.n m (plen - nw) 0).2.2.b with body := none } }).1
            with _ | e
          · rw [hnr] at h
            dsimp only at h
            obtain ⟨-, -, -, -, -, -, -, nm, nd⟩ := nextReader_frame env
              { (read content env m.b.n m (plen - nw) 0).2.2 with
                b := { (read content env m.b.n m (plen - nw) 0).2.2.b with body := none } }
            obtain ⟨ds2, im, idv⟩ := ih _ _ _ _ h
            refine ⟨ds1 ++ ds2, ?_, ?_⟩
            · rw [im, nm, rm, List.append_assoc]
            · rw [idv, nd, rd, List.append_assoc]
          · rw [hnr] at h
            dsimp only at h
            cases h
            obtain ⟨-, -, -, -, -, -, -, nm, nd⟩ := nextReader_frame env
              { (read content env m.b.n m (plen - nw) 0).2.2 with
                b := { (read content env m.b.n m (plen - nw) 0).2.2.b with body := none } }
            exact ⟨ds1, nm.trans rm, nd.trans rd⟩
      · rw [if_neg heof] at h
        rcases he2 : (read content env m.b.n m (plen - nw) 0).2.1 with _ | e
        · rw [he2] at h
          dsimp only at h
          obtain ⟨ds2, im, idv⟩ := ih _ _ _ _ h
          refine ⟨ds1 ++ ds2, ?_, ?_⟩
          · rw [im, rm, List.append_assoc]
          · rw [idv, rd, List.append_assoc]
        · rw [he2] at h
          dsimp only at h
          cases h
          exact ⟨ds1, rm, rd⟩
    · rw [if_neg hlt] at h
      cases h
      exact ⟨[], by simp, by simp⟩

theorem Inv_cPos_le {content : List Nat} {m : M} (h : Inv content m) :
    m.b.cPos ≤ m.b.tPos := by
  obtain ⟨ht, hc, hd, -, -, -⟩ := h
  rw [ht, hc]
  exact_mod_cast take_self_len_le hd

theorem Read_spec {content : List Nat} {env : Env} {fuel : Nat} {m : M} {plen : Nat}
    {res : Nat × Option GErr × M}
    (hInv : Inv content m) (h : Read content env fuel m plen = some res) :
    Inv content res.2.2 ∧ (res.2.1 = some GErr.eof → res.2.2.b.cPos = res.2.2.b.tPos) := by
  have hle := Inv_cPos_le hInv
  unfold Read at h
  dsimp only at h
  by_cases hcl : m.b.closed = true
  · rw [if_pos hcl] at h
    cases h
    exact ⟨hInv, by intro hx; cases hx⟩
  · rw [if_neg hcl] at h
    rcases herr : m.b.err with _ | e
    · rw [herr] at h
      dsimp only at h
      by_cases h1 : m.b.cPos = m.b.tPos + 1
      · exact absurd h1 (by omega)
      · rw [if_neg h1] at h
        by_cases h2 : m.b.tPos + 1 < m.b.cPos
        · exact absurd h2 (by omega)
        · rw [if_neg h2] at h
          by_cases hbd : m.b.body = none
          · rw [if_pos hbd] at h
            rcases hnr : (nextReader env m).1 with _ | e
            · rw [hnr] at h
              dsimp only at h
              exact readWhile_spec _ _ _ _ _ (Inv_nextReader hInv) h
            · rw [hnr] at h
              dsimp only at h
              cases h
              refine ⟨Inv_nextReader hInv, ?_⟩
              intro hx
              dsimp only at hx
              rw [hx] at hnr
              exact absurd hnr (nextReader_err_ne env m)
          · rw [if_neg hbd] at h
            dsimp only at h
            exact readWhile_spec _ _ _ _ _ hInv h
    · rw [herr] at h
      dsimp only at h
      cases h
      refine ⟨hInv, ?_⟩
      intro hx
      dsimp only at hx
      obtain ⟨-, -, -, -, -, he⟩ := hInv
      rw [hx] at herr
      exact absurd herr he

theorem copyAll_spec {content : List Nat} {env : Env} :
    ∀ (fuel : Nat) (m : M) (plen : Nat) (res : Option GErr × M),
      Inv content m → copyAll content env fuel m plen = some res →
      Inv content res.2 ∧ (res.1 = none → res.2.b.cPos = res.2.b.tPos) := by
  intro fuel
  induction fuel with
  | zero => intro m plen res _ h; cases h
  | succ k ih =>
    intro m plen res hInv h
    unfold copyAll at h
    rcases hR : Read content env (Nat.succ k) m plen with _ | r
    · rw [hR] at h; cases h
    · rw [hR] at h
      dsimp only at h
      obtain ⟨hI, hE⟩ := Read_spec hInv hR
      by_cases heof : r.2.1 = some GErr.eof
      · rw [if_pos heof] at h
        cases h
        exact ⟨hI, fun _ => hE heof⟩
      · rw [if_neg heof] at h
        rcases he2 : r.2.1 with _ | e
        · rw [he2] at h
          dsimp only at h
          exact ih _ _ _ hI h
        · rw [he2] at h
          dsimp only at h
          cases h
          exact ⟨hI, by intro hx; cases hx⟩

theorem Inv_openMachine (content : List Nat) (attempts : Nat) (etagHeader : String) :
    Inv content (openMachine content attempts etagHeader) := by
  refine ⟨rfl, rfl, rfl, ?_, ?_, ?_⟩
  · intro conn hx
    cases Option.some_inj.mp hx
    rfl
  · intro v hv
    cases hv
  · intro hx
    cases hx

/-- C1: for a resource of declared length `L` read sequentially from a fresh
open, on an underlying read error (or a premature end of the underlying
stream) the stream discards the active body and reopens with a range request
at exactly the current position, so that whenever the sequential drive ends in
the end-of-data signal the caller has received each of the `L` bytes exactly
once, in resource-offset order, across any number of reconnects (the final
position equalling the target length); moreover every successful reconnection
performed at a positive current position yields a connection standing at
exactly that position (never the original start). -/
theorem C1_sequential_exactly_once
    (content : List Nat) (env : Env) (attempts : Nat) (etagHeader : String)
    (plen fuel : Nat) (mf : M)
    (h : copyAll content env fuel (openMachine content attempts etagHeader) plen = some (none, mf)) :
    mf.delivered = content ∧ mf.b.cPos = mf.b.tPos
    ∧ (∀ (m : M) (conn : Conn), 0 < m.b.cPos → m.b.body = none →
        ((nextReader env m).2).b.body = some conn → (conn.pos : Int) = m.b.cPos) := by
  obtain ⟨hI, hE⟩ := copyAll_spec _ _ _ _ (Inv_openMachine content attempts etagHeader) h
  have hct : mf.b.cPos = mf.b.tPos := hE rfl
  obtain ⟨ht, hc, hd, -, -, -⟩ := hI
  have hlen : mf.delivered.length = content.length := by
    have : ((mf.delivered.length : Int)) = (content.length : Int) := by
      rw [← hc, ← ht, hct]
    exact_mod_cast this
  refine ⟨?_, hct, ?_⟩
  · rw [hd, hlen, List.take_length]
  · intro m conn hcp hbd hsome
    unfold nextReader at hsome
    dsimp only at hsome
    rw [if_pos hcp] at hsome
    dsimp only [Option.getD] at hsome
    rcases hret : (retry env m.b.cPos.toNat m.b.n m.openIdx).1 with _ | c2
    · rw [hret] at hsome
      dsimp only at hsome
      rw [hbd] at hsome
      cases hsome
    · rw [hret] at hsome
      dsimp only at hsome
      have hne : ¬ ((some m.b.cPos : Option Int) = none) := by simp
      rw [if_neg hne] at hsome
      dsimp only at hsome
      have hc2 : c2 = ⟨m.b.cPos.toNat⟩ := retry_some hret
      cases Option.some_inj.mp hsome
      rw [hc2]
      show ((m.b.cPos.toNat : Nat) : Int) = m.b.cPos
      exact Int.toNat_of_nonneg (le_of_lt hcp)

/-- Environment of the C1 witness run: the first underlying read delivers two
bytes and then fails with a transport error, the reconnection succeeds, the
next read delivers the remaining two bytes, and the connection then signals
end-of-stream. -/
def c1env : Env :=
  { reads := fun k => if k = 0 then (2, RSig.errSig) else if k = 1 then (2, RSig.ok) else (4, RSig.eofSig),
    opens := fun _ => true }

/-- The final machine of the C1 witness run: one reconnection (at offset 2)
occurred and all four bytes were delivered exactly once, in order. -/
def c1mf : M :=
  { b := { etag := none, n := 5, reqRange := some 2, body := none, cPos := 4, tPos := 4,
           closed := false, seeked := false, err := none, md5acc := [1, 2, 3, 4] },
    readIdx := 3, openIdx := 1, delivered := [1, 2, 3, 4] }

/-- Witness for C1: a concrete run with a mid-stream disconnection and a
successful reconnection satisfies the hypotheses, and the conclusion gives
exactly-once in-order delivery. -/
theorem C1_sequential_exactly_once_witness :
    c1mf.delivered = [1, 2, 3, 4] ∧ c1mf.b.cPos = c1mf.b.tPos :=
  ⟨(C1_sequential_exactly_once [1, 2, 3, 4] c1env 5 "" 4 10 c1mf (by decide)).1,
   (C1_sequential_exactly_once [1, 2, 3, 4] c1env 5 "" 4 10 c1mf (by decide)).2.1⟩

theorem Read_err {content : List Nat} {env : Env} {fuel : Nat} {m : M} {plen : Nat}
    {res : Nat × Option GErr × M}
    (h : Read content env fuel m plen = some res) :
    res.2.2.b.err = m.b.err ∨ res.2.2.b.err = res.2.1 := by
  unfold Read at h
  dsimp only at h
  by_cases hcl : m.b.closed = true
  · rw [if_pos hcl] at h
    cases h
    exact Or.inl rfl
  · rw [if_neg hcl] at h
    rcases herr : m.b.err with _ | e
    · rw [herr] at h
      dsimp only at h
      by_cases h1 : m.b.cPos = m.b.tPos + 1
      · rw [if_pos h1] at h
        cases h
        exact Or.inl herr
      · rw [if_neg h1] at h
        by_cases h2 : m.b.tPos + 1 < m.b.cPos
        · rw [if_pos h2] at h
          cases h
          exact Or.inl herr
        · rw [if_neg h2] at h
          by_cases hbd : m.b.body = none
          · rw [if_pos hbd] at h
            obtain ⟨ne, -, -, -, -, -, -, -, -⟩ := nextReader_frame env m
            rcases hnr : (nextReader env m).1 with _ | e
            · rw [hnr] at h
              dsimp only at h
              rcases readWhile_err _ _ _ _ _ h with hg | hg
              · exact Or.inl (hg.trans (ne.trans herr))
              · exact Or.inr hg
            · rw [hnr] at h
              dsimp only at h
              cases h
              exact Or.inl (ne.trans herr)
          · rw [if_neg hbd] at h
            dsimp only at h
            rcases readWhile_err _ _ _ _ _ h with hg | hg
            · exact Or.inl (hg.trans herr)
            · exact Or.inr hg
    · rw [herr] at h
      dsimp only at h
      cases h
      exact Or.inl herr

theorem Read_md5 {content : List Nat} {env : Env} {fuel : Nat} {m : M} {plen : Nat}
    {res : Nat × Option GErr × M}
    (h : Read content env fuel m plen = some res) :
    ∃ ds, res.2.2.b.md5acc = m.b.md5acc ++ ds ∧ res.2.2.delivered = m.delivered ++ ds := by
  unfold Read at h
  dsimp only at h
  by_cases hcl : m.b.closed = true
  · rw [if_pos hcl] at h
    cases h
    exact ⟨[], by simp, by simp⟩
  · rw [if_neg hcl] at h
    rcases herr : m.b.err with _ | e
    · rw [herr] at h
      dsimp only at h
      by_cases h1 : m.b.cPos = m.b.tPos + 1
      · rw [if_pos h1] at h
        cases h
        exact ⟨[], by simp, by simp⟩
      · rw [if_neg h1] at h
        by_cases h2 : m.b.tPos + 1 < m.b.cPos
        · rw [if_pos h2] at h
          cases h
          exact ⟨[], by simp, by simp⟩
        · rw [if_neg h2] at h
          by_cases hbd : m.b.body = none
          · rw [if_pos hbd] at h
            obtain ⟨-, -, -, -, -, -, -, nm, nd⟩ := nextReader_frame env m
            rcases hnr : (nextReader env m).1 with _ | e
            · rw [hnr] at h
              dsimp only at h
              obtain ⟨ds, hm, hdv⟩ := readWhile_md5 _ _ _ _ _ h
              exact ⟨ds, by rw [hm, nm], by rw [hdv, nd]⟩
            · rw [hnr] at h
              dsimp only at h
              cases h
              exact ⟨[], by simp [nm], by simp [nd]⟩
          · rw [if_neg hbd] at h
            dsimp only at h
            exact readWhile_md5 _ _ _ _ _ h
    · rw [herr] at h
      dsimp only at h
      cases h
      exact ⟨[], by simp, by simp⟩

/-- The fully consumed stream over the one-byte resource `[7]`: the state a
sequential read ends in, with `cPos = tPos = 1`, the exhausted connection
already discarded, no sticky error, not closed. -/
def c2mAtEnd : M :=
  { b := { etag := none, n := 5, reqRange := some 1, body := none, cPos := 1, tPos := 1,
           closed := false, seeked := false, err := none, md5acc := [7] },
    readIdx := 2, openIdx := 0, delivered := [7] }

/-- A counterparty that rejects every HTTP attempt (as a real server rejects
the out-of-range request `bytes=1-` on a length-1 resource) and fails every
underlying read. -/
def c2failEnv : Env := { reads := fun _ => (0, RSig.errSig), opens := fun _ => false }

/-- C2 (evaluation at the failing input): on a stream with no sticky error
that is not closed, a `Read` at `cPos == tPos` does NOT signal end-of-data:
it attempts a network reopen (here consuming all five HTTP attempts of a
range-rejecting server and surfacing their failure); end-of-data is signalled
only at `cPos == tPos + 1`, and the hard past-boundary error only strictly
beyond that — each boundary is off by one from the claimed behaviour. -/
theorem C2_boundary_off_by_one :
    ((Read [7] c2failEnv 3 c2mAtEnd 1).map fun r => (r.1, r.2.1, r.2.2.openIdx))
      = some (0, some (GErr.requestFailed 5), 5)
    ∧ ((Read [7] c2failEnv 3 { c2mAtEnd with b := { c2mAtEnd.b with cPos := 2 } } 1).map
        fun r => (r.1, r.2.1)) = some (0, some GErr.eof)
    ∧ ((Read [7] c2failEnv 3 { c2mAtEnd with b := { c2mAtEnd.b with cPos := 3 } } 1).map
        fun r => (r.1, r.2.1)) = some (0, some (GErr.pastBoundary 3 1)) := by
  refine ⟨?_, ?_, ?_⟩ <;> decide

/-- C8: a Seek whose computed target is negative returns the hard
cannot-seek-before-beginning error and leaves the whole stream state
unchanged; a Seek whose computed target equals the current position is a
complete no-op returning the current position with no error and no state
change (active body, digest accumulator and seeked flag all kept — and `Seek`
consults no environment, so no network request can occur). -/
theorem C8_seek_negative_and_noop (b : Body) (offset : Int) (w : Whence) :
    (seekPos b offset w < 0 → Seek b offset w = (b.cPos, some GErr.seekBefore, b))
    ∧ (0 ≤ seekPos b offset w → seekPos b offset w = b.cPos →
        Seek b offset w = (b.cPos, none, b)) := by
  constructor
  · intro hneg
    unfold Seek
    dsimp only
    rw [if_pos hneg]
  · intro hpos heq
    unfold Seek
    dsimp only
    rw [if_neg (by omega), if_pos heq.symm]

/-- Witness for C8: concrete negative-target and same-target seeks. -/
theorem C8_seek_negative_and_noop_witness :
    Seek { cPos := 2, tPos := 5 } (-3) Whence.seekStart
      = (2, some GErr.seekBefore, { cPos := 2, tPos := 5 })
    ∧ Seek { cPos := 2, tPos := 5 } 2 Whence.seekStart
      = (2, none, { cPos := 2, tPos := 5 }) :=
  ⟨(C8_seek_negative_and_noop { cPos := 2, tPos := 5 } (-3) Whence.seekStart).1 (by decide),
   (C8_seek_negative_and_noop { cPos := 2, tPos := 5 } 2 Whence.seekStart).2
     (by decide) (by decide)⟩

/-- C10: every Seek whose computed absolute target is non-negative succeeds,
returns the target, and sets the position to it — with no upper-bound check,
so in particular for targets strictly beyond the target length; the
out-of-range position is detected only by a later Read, which returns the
hard past-boundary error for any position strictly beyond `tPos + 1` without
touching the network (positions up to `tPos + 1` fall under the off-by-one
end-of-data convention of the Read guards, see C2). -/
theorem C10_seek_no_upper_bound (b : Body) (offset : Int) (w : Whence)
    (h : 0 ≤ seekPos b offset w) :
    (Seek b offset w).1 = seekPos b offset w
    ∧ (Seek b offset w).2.1 = none
    ∧ (Seek b offset w).2.2.cPos = seekPos b offset w
    ∧ (∀ (content : List Nat) (env : Env) (fuel : Nat) (m : M) (plen : Nat),
        m.b.closed = false → m.b.err = none → m.b.tPos + 1 < m.b.cPos →
        Read content env fuel m plen
          = some (0, some (GErr.pastBoundary m.b.cPos m.b.tPos), m)) := by
  refine ⟨?_, ?_, ?_, ?_⟩
  · unfold Seek
    dsimp only
    rw [if_neg (by omega)]
    by_cases hc : b.cPos = seekPos b offset w
    · rw [if_pos hc]
      exact hc
    · rw [if_neg hc]
      by_cases hz : seekPos b offset w = 0 <;> by_cases hb2 : b.body = none <;>
        simp [hz, hb2]
  · unfold Seek
    dsimp only
    rw [if_neg (by omega)]
    by_cases hc : b.cPos = seekPos b offset w
    · rw [if_pos hc]
    · rw [if_neg hc]
  · unfold Seek
    dsimp only
    rw [if_neg (by omega)]
    by_cases hc : b.cPos = seekPos b offset w
    · rw [if_pos hc]
      exact hc
    · rw [if_neg hc]
      by_cases hz : seekPos b offset w = 0 <;> by_cases hb2 : b.body = none <;>
        simp [hz, hb2]
  · intro content env fuel m plen hcl herr h2
    unfold Read
    dsimp only
    rw [if_neg (by simp [hcl]), herr]
    dsimp only
    rw [if_neg (by omega), if_pos h2]

/-- Witness for C10: a seek to position 10 on a length-3 resource succeeds
and a later Read at that position reports the past-boundary error. -/
theorem C10_seek_no_upper_bound_witness :
    (Seek { cPos := 0, tPos := 3 } 10 Whence.seekStart).1 = 10
    ∧ (Seek { cPos := 0, tPos := 3 } 10 Whence.seekStart).2.1 = none
    ∧ Read [1, 2, 3] c2failEnv 3
        { b := { cPos := 10, tPos := 3 }, readIdx := 0, openIdx := 0, delivered := [] } 4
      = some (0, some (GErr.pastBoundary 10 3),
          { b := { cPos := 10, tPos := 3 }, readIdx := 0, openIdx := 0, delivered := [] }) :=
  ⟨by
    have := (C10_seek_no_upper_bound { cPos := 0, tPos := 3 } 10 Whence.seekStart (by decide)).1
    simpa using this,
   by
    have := (C10_seek_no_upper_bound { cPos := 0, tPos := 3 } 10 Whence.seekStart (by decide)).2.1
    simpa using this,
   (C10_seek_no_upper_bound { cPos := 0, tPos := 3 } 10 Whence.seekStart (by decide)).2.2.2
     [1, 2, 3] c2failEnv 3
     { b := { cPos := 10, tPos := 3 }, readIdx := 0, openIdx := 0, delivered := [] } 4
     rfl rfl (by decide)⟩

/-- A stream that has been closed: the result of the first `Close` of a
freshly opened stream. -/
def c5closed : Body := (Close (openMachine [1, 2, 3] 5 "").b).2

/-- C5 counterexample: on a closed stream, `Seek` does NOT return the
operation-on-closed-handle error — it succeeds with no error and moves the
position, because `Seek` never consults the `closed` flag. -/
theorem C5_counterexample :
    c5closed.closed = true
    ∧ (Seek c5closed 1 Whence.seekStart).2.1 = none
    ∧ (Seek c5closed 1 Whence.seekStart).1 = 1
    ∧ (Seek c5closed 1 Whence.seekStart).2.2.cPos = 1 := by
  refine ⟨?_, ?_, ?_, ?_⟩ <;> decide

/-- C5 (amended): once a stream is closed, `Read` and every further `Close`
return the operation-on-closed-handle error, consistently on every
repetition, leaving the state unchanged; the first `Close` of an open stream
reports no error and marks the stream closed; but `Seek` performs no
closed-handle check — on a closed stream any seek to a non-negative target
succeeds exactly as on an open one. -/
theorem C5_closed_operations (b : Body) (content : List Nat) (env : Env)
    (fuel plen : Nat) (m : M) (offset : Int) (w : Whence) :
    (b.closed = true →
      Close b = (some GErr.einval, b)
      ∧ Close (Close b).2 = (some GErr.einval, b))
    ∧ (m.b.closed = true → Read content env fuel m plen = some (0, some GErr.einval, m))
    ∧ (b.closed = true → 0 ≤ seekPos b offset w → (Seek b offset w).2.1 = none)
    ∧ (b.closed = false → (Close b).1 = none ∧ (Close b).2.closed = true) := by
  refine ⟨?_, ?_, ?_, ?_⟩
  · intro hcl
    have h1 : Close b = (some GErr.einval, b) := by
      unfold Close
      rw [if_pos hcl]
    exact ⟨h1, by rw [h1]; exact h1⟩
  · intro hcl
    unfold Read
    dsimp only
    rw [if_pos hcl]
  · intro hcl hpos
    unfold Seek
    dsimp only
    rw [if_neg (by omega)]
    by_cases hc : b.cPos = seekPos b offset w
    · rw [if_pos hc]
    · rw [if_neg hc]
  · intro hcl
    unfold Close
    rw [if_neg (by simp [hcl])]
    exact ⟨rfl, rfl⟩

/-- Witness for C5 (amended): the closed stream `c5closed` rejects `Read` and
repeated `Close` with the closed-handle error yet accepts a seek; the first
close of a fresh stream succeeds. -/
theorem C5_closed_operations_witness :
    Close c5closed = (some GErr.einval, c5closed)
    ∧ Read [1, 2, 3] c2failEnv 3
        { b := c5closed, readIdx := 0, openIdx := 0, delivered := [] } 4
      = some (0, some GErr.einval,
          { b := c5closed, readIdx := 0, openIdx := 0, delivered := [] })
    ∧ (Seek c5closed 2 Whence.seekStart).2.1 = none
    ∧ (Close (openMachine [1, 2, 3] 5 "").b).1 = none :=
  ⟨((C5_closed_operations c5closed [1, 2, 3] c2failEnv 3 4
      { b := c5closed, readIdx := 0, openIdx := 0, delivered := [] } 2 Whence.seekStart).1
      (by decide)).1,
   (C5_closed_operations c5closed [1, 2, 3] c2failEnv 3 4
      { b := c5closed, readIdx := 0, openIdx := 0, delivered := [] } 2 Whence.seekStart).2.1
      (by decide),
   (C5_closed_operations c5closed [1, 2, 3] c2failEnv 3 4
      { b := c5closed, readIdx := 0, openIdx := 0, delivered := [] } 2 Whence.seekStart).2.2.1
      (by decide) (by decide),
   ((C5_closed_operations (openMachine [1, 2, 3] 5 "").b [1, 2, 3] c2failEnv 3 4
      { b := c5closed, readIdx := 0, openIdx := 0, delivered := [] } 2 Whence.seekStart).2.2.2
      (by decide)).1⟩

/-- The environment of the C6 counterexample run: each underlying read offers
three bytes with a nil error; every HTTP attempt succeeds. -/
def c6env : Env := { reads := fun _ => (3, RSig.ok), opens := fun _ => true }

/-- The stream after sequentially reading three bytes of the four-byte
resource `[1,2,3,4]` from a fresh open: position 3, `seeked = false`. -/
def c6m : M :=
  { b := { etag := none, n := 5, reqRange := none, body := some ⟨3⟩, cPos := 3, tPos := 4,
           closed := false, seeked := false, err := none, md5acc := [1, 2, 3] },
    readIdx := 1, openIdx := 0, delivered := [1, 2, 3] }

/-- C6 counterexample: a reachable stream (three bytes read sequentially)
stands at the non-zero position 3 with `seeked = false`; a Seek to the
non-zero position 3 does NOT set `seekedAwayFromZero` — it is a no-op and the
flag stays false, refuting "a Seek to any non-zero position sets
seekedAwayFromZero to true". -/
theorem C6_counterexample :
    (Read [1, 2, 3, 4] c6env 5 (openMachine [1, 2, 3, 4] 5 "") 3).map (fun r => r.2.2)
      = some c6m
    ∧ Seek c6m.b 3 Whence.seekStart = (3, none, c6m.b)
    ∧ c6m.b.seeked = false
    ∧ (Seek c6m.b 3 Whence.seekStart).2.2.seeked = false := by
  refine ⟨?_, ?_, ?_, ?_⟩ <;> decide

/-- C6 (amended): a Seek with a negative target or a target equal to the
current position changes nothing (in particular the accumulator and the
seeked flag); a Seek that moves the position resets the digest accumulator to
the empty state and clears `seekedAwayFromZero` exactly when the new position
is 0, and sets `seekedAwayFromZero` (keeping the accumulator) when the new
position is non-zero; and no Read ever resets the accumulator — it only ever
appends the delivered bytes to it. -/
theorem C6_digest_reset_characterization :
    (∀ (b : Body) (offset : Int) (w : Whence),
      (seekPos b offset w < 0 → (Seek b offset w).2.2 = b)
      ∧ (seekPos b offset w = b.cPos → (Seek b offset w).2.2 = b)
      ∧ (0 ≤ seekPos b offset w → seekPos b offset w ≠ b.cPos → seekPos b offset w = 0 →
          (Seek b offset w).2.2.md5acc = [] ∧ (Seek b offset w).2.2.seeked = false)
      ∧ (0 ≤ seekPos b offset w → seekPos b offset w ≠ b.cPos → seekPos b offset w ≠ 0 →
          (Seek b offset w).2.2.md5acc = b.md5acc ∧ (Seek b offset w).2.2.seeked = true))
    ∧ (∀ (content : List Nat) (env : Env) (fuel : Nat) (m : M) (plen : Nat)
         (res : Nat × Option GErr × M),
        Read content env fuel m plen = some res →
        ∃ ds, res.2.2.b.md5acc = m.b.md5acc ++ ds) := by
  constructor
  · intro b offset w
    refine ⟨?_, ?_, ?_, ?_⟩
    · intro hneg
      unfold Seek
      dsimp only
      rw [if_pos hneg]
    · intro heq
      unfold Seek
      dsimp only
      by_cases hneg : seekPos b offset w < 0
      · rw [if_pos hneg]
      · rw [if_neg hneg, if_pos heq.symm]
    · intro hpos hne hz
      unfold Seek
      dsimp only
      rw [if_neg (by omega), if_neg (fun hx => hne (hx.symm)), if_pos hz]
      by_cases hb2 : b.body = none <;> simp [hb2]
    · intro hpos hne hz
      unfold Seek
      dsimp only
      rw [if_neg (by omega), if_neg (fun hx => hne (hx.symm)), if_neg hz]
      by_cases hb2 : b.body = none <;> simp [hb2]
  · intro content env fuel m plen res h
    obtain ⟨ds, hm, -⟩ := Read_md5 h
    exact ⟨ds, hm⟩

/-- Witness for C6 (amended): concrete seeks to 0 and to a non-zero position,
and a concrete Read appending to the accumulator. -/
theorem C6_digest_reset_characterization_witness :
    ((Seek { cPos := 3, tPos := 5, md5acc := [9] } 0 Whence.seekStart).2.2.md5acc = []
      ∧ (Seek { cPos := 3, tPos := 5, md5acc := [9] } 0 Whence.seekStart).2.2.seeked = false)
    ∧ ((Seek { cPos := 3, tPos := 5, md5acc := [9] } 2 Whence.seekStart).2.2.md5acc = [9]
      ∧ (Seek { cPos := 3, tPos := 5, md5acc := [9] } 2 Whence.seekStart).2.2.seeked = true)
    ∧ (∃ ds, ((Read [1, 2, 3, 4] c6env 5 (openMachine [1, 2, 3, 4] 5 "") 3).map
        (fun r => r.2.2.b.md5acc) = some ((openMachine [1, 2, 3, 4] 5 "").b.md5acc ++ ds))) := by
  refine ⟨?_, ?_, ?_⟩
  · exact (C6_digest_reset_characterization.1
      { cPos := 3, tPos := 5, md5acc := [9] } 0 Whence.seekStart).2.2.1
      (by decide) (by decide) (by decide)
  · exact (C6_digest_reset_characterization.1
      { cPos := 3, tPos := 5, md5acc := [9] } 2 Whence.seekStart).2.2.2
      (by decide) (by decide) (by decide)
  · obtain ⟨ds, hds⟩ := C6_digest_reset_characterization.2 [1, 2, 3, 4] c6env 5
      (openMachine [1, 2, 3, 4] 5 "") 3 (3, none, c6m) (by decide)
    refine ⟨ds, ?_⟩
    have hR : Read [1, 2, 3, 4] c6env 5 (openMachine [1, 2, 3, 4] 5 "") 3
        = some (3, none, c6m) := by decide
    rw [hR]
    simpa using congrArg some hds

/-- C7: verification trivially succeeds whenever no expected digest was
captured at open time, whatever the seeked flag; with an expected digest it
fails with the cannot-verify-after-seeking error whenever the stream has been
seeked; and otherwise it succeeds exactly when the rendered (lowercase hex)
digest of the accumulated bytes equals the expected digest, a mismatch
producing the error that names both values. -/
theorem C7_verify_integrity (b : Body) :
    (b.etag = none → VerifyCopiedData b = none)
    ∧ (∀ e, b.etag = some e → b.seeked = true →
        VerifyCopiedData b = some GErr.verifySeeked)
    ∧ (∀ e, b.etag = some e → b.seeked = false →
        (VerifyCopiedData b = none ↔ e = md5hex b.md5acc)
        ∧ (e ≠ md5hex b.md5acc →
            VerifyCopiedData b = some (GErr.verifyMismatch e (md5hex b.md5acc)))) := by
  refine ⟨?_, ?_, ?_⟩
  · intro he
    unfold VerifyCopiedData
    rw [he]
  · intro e he hs
    unfold VerifyCopiedData
    rw [he]
    dsimp only
    rw [if_pos hs]
  · intro e he hs
    unfold VerifyCopiedData
    rw [he]
    dsimp only
    rw [if_neg (by simp [hs])]
    constructor
    · constructor
      · intro hv
        by_cases hm : e = md5hex b.md5acc
        · exact hm
        · rw [if_neg hm] at hv
          cases hv
      · intro hm
        rw [if_pos hm]
    · intro hm
      rw [if_neg hm]

/-- Witness for C7: the four verification outcomes at concrete streams — no
expected digest (even when seeked), the seeked guard, a matching digest, and
a mismatch naming both values. -/
theorem C7_verify_integrity_witness :
    VerifyCopiedData { etag := none, seeked := true } = none
    ∧ VerifyCopiedData { etag := some "x", seeked := true } = some GErr.verifySeeked
    ∧ VerifyCopiedData { etag := some (md5hex []), seeked := false, md5acc := [] } = none
    ∧ VerifyCopiedData { etag := some "x", seeked := false, md5acc := [] }
        = some (GErr.verifyMismatch "x" (md5hex [])) :=
  ⟨(C7_verify_integrity { etag := none, seeked := true }).1 rfl,
   (C7_verify_integrity { etag := some "x", seeked := true }).2.1 "x" rfl rfl,
   ((C7_verify_integrity { etag := some (md5hex []), seeked := false, md5acc := [] }).2.2
      (md5hex []) rfl rfl).1.mpr rfl,
   ((C7_verify_integrity { etag := some "x", seeked := false, md5acc := [] }).2.2
      "x" rfl rfl).2 (by decide)⟩

/-- The 32-character non-hexadecimal header of the C9 counterexample. -/
def c9zs : String := "zzzzzzzzzzzzzzzzzzzzzzzzzzzzzzzz"

/-- C9 counterexample: a 32-character header that is not hexadecimal (every
character is 'z', which is not a hex digit) is nevertheless recorded as the
expected digest — `tryParseETag` validates only the length, never the
characters. -/
theorem C9_counterexample :
    tryParseETag c9zs = some c9zs
    ∧ c9zs.length = 32
    ∧ 'z' ∈ c9zs.data
    ∧ ¬ ('0' ≤ 'z' ∧ 'z' ≤ '9')
    ∧ ¬ ('a' ≤ 'z' ∧ 'z' ≤ 'f')
    ∧ ¬ ('A' ≤ 'z' ∧ 'z' ≤ 'F') := by
  refine ⟨?_, ?_, ?_, ?_, ?_, ?_⟩ <;> decide

/-- C9 (amended): an expected digest is recorded if and only if the header
is exactly 32 characters long (an empty header has length 0 and is thereby
ignored, and multi-part composite values are longer than 32 and ignored);
the recorded value is the header verbatim, with no hexadecimal validation. -/
theorem C9_etag_length_only (s : String) :
    ((tryParseETag s).isSome ↔ s.length = 32)
    ∧ (∀ t, tryParseETag s = some t → t = s) := by
  constructor
  · unfold tryParseETag
    by_cases h0 : s = ""
    · subst h0
      simp
    · rw [if_neg h0]
      by_cases h1 : s.length ≠ 32
      · simp [h1]
      · simp [h1]
        exact not_not.mp h1
  · intro t ht
    unfold tryParseETag at ht
    by_cases h0 : s = ""
    · rw [if_pos h0] at ht
      cases ht
    · rw [if_neg h0] at ht
      by_cases h1 : s.length ≠ 32
      · rw [if_pos h1] at ht
        cases ht
      · rw [if_neg h1] at ht
        exact (Option.some_inj.mp ht).symm

/-- Witness for C9 (amended): a concrete 32-character header is recorded
verbatim; a 5-character header is not. -/
theorem C9_etag_length_only_witness :
    ("aaaaaaaaaaaaaaaaaaaaaaaaaaaaaaaa" : String).length = 32
    ∧ ("aaaaaaaaaaaaaaaaaaaaaaaaaaaaaaaa" : String) = "aaaaaaaaaaaaaaaaaaaaaaaaaaaaaaaa"
    ∧ ¬ (tryParseETag "abcde").isSome :=
  ⟨(C9_etag_length_only "aaaaaaaaaaaaaaaaaaaaaaaaaaaaaaaa").1.mp (by decide),
   (C9_etag_length_only "aaaaaaaaaaaaaaaaaaaaaaaaaaaaaaaa").2
     "aaaaaaaaaaaaaaaaaaaaaaaaaaaaaaaa" (by decide),
   fun hx => by
     have := (C9_etag_length_only "abcde").1.mp hx
     exact absurd this (by decide)⟩

/-- A fully cooperative environment for the C3 run: every HTTP attempt
succeeds and every underlying read offers the whole resource with an
end-of-stream signal. -/
def c3goodEnv : Env := { reads := fun _ => (3, RSig.eofSig), opens := fun _ => true }

/-- The stream after opening `[1,2,3]`, seeking away from zero (to 2) and
seeking back to 0 — with no intervening read, so the cached request has never
carried a `Range` header. -/
def c3m2 : M :=
  (SeekM (SeekM (openMachine [1, 2, 3] 5 "") 2 Whence.seekStart).2.2 0 Whence.seekStart).2.2

/-- C3 counterexample: after seeking away from zero and back to zero,
`seekedAwayFromZero` is indeed false — but the subsequent full sequential
read does NOT reach the end-of-data signal even under a fully cooperative
environment: the lazy reopen at position 0 sends no `Range` header, its
response carries no `Content-Range`, and the drive fails with the
missing-Content-Range error having delivered nothing. -/
theorem C3_counterexample :
    c3m2.b.seeked = false
    ∧ (copyAll [1, 2, 3] c3goodEnv 10 c3m2 4).map Prod.fst
        = some (some GErr.missingContentRange)
    ∧ (copyAll [1, 2, 3] c3goodEnv 10 c3m2 4).map (fun r => r.2.delivered) = some [] := by
  refine ⟨?_, ?_, ?_⟩ <;> decide

/-- C3 (amended): after seeking away from zero and then back to position 0
the `seekedAwayFromZero` flag is false, the position is 0 and the accumulator
is reset, and verification is no longer blocked by the seeked guard; however
the subsequent sequential read reaches the end-of-data signal only if the
reopened request carries a `Range` header — when the stream's cached request
holds no `Range` header (no ranged reopen ever happened), the lazy reopen at
position 0 is un-ranged, its response carries no `Content-Range`, and `Read`
fails with the missing-Content-Range error instead of delivering data. -/
theorem C3_seek_back_to_zero :
    (∀ (b : Body) (p : Int), 0 < p →
      (Seek (Seek b p Whence.seekStart).2.2 0 Whence.seekStart).2.2.seeked = false
      ∧ (Seek (Seek b p Whence.seekStart).2.2 0 Whence.seekStart).2.2.cPos = 0
      ∧ (Seek (Seek b p Whence.seekStart).2.2 0 Whence.seekStart).2.2.md5acc = [])
    ∧ (∀ b : Body, b.seeked = false → VerifyCopiedData b ≠ some GErr.verifySeeked)
    ∧ (∀ (content : List Nat) (env : Env) (fuel plen : Nat) (m : M),
        m.b.closed = false → m.b.err = none → m.b.body = none → m.b.cPos = 0 →
        m.b.reqRange = none → 0 ≤ m.b.tPos → 0 < m.b.n → (∀ k, env.opens k = true) →
        Read content env fuel m plen
          = some (0, some GErr.missingContentRange,
              { m with openIdx := m.openIdx + 1, b := { m.b with reqRange := none } })) := by
  refine ⟨?_, ?_, ?_⟩
  · intro b p hp
    set b1 : Body := (Seek b p Whence.seekStart).2.2 with hb1def
    have hb1 : b1.cPos = p := by
      rw [hb1def]
      unfold Seek
      dsimp only [seekPos]
      rw [if_neg (by omega)]
      by_cases hc : b.cPos = 0 + p
      · rw [if_pos hc]
        dsimp only
        omega
      · rw [if_neg hc]
        by_cases hz : p = 0
        · exact absurd hz (by omega)
        · by_cases hb2 : b.body = none <;> simp [hz, hb2]
    refine ⟨?_, ?_, ?_⟩ <;>
    · unfold Seek
      dsimp only [seekPos]
      rw [if_neg (show ¬ (0 : Int) + 0 < 0 by omega),
          if_neg (show ¬ b1.cPos = 0 + 0 by rw [hb1]; omega)]
      by_cases hb2 : b1.body = none <;> simp [hb2]
  · intro b hs hvx
    unfold VerifyCopiedData at hvx
    rcases hetag : b.etag with _ | e
    · rw [hetag] at hvx
      cases hvx
    · rw [hetag] at hvx
      dsimp only at hvx
      rw [if_neg (by simp [hs])] at hvx
      by_cases hm : e = md5hex b.md5acc
      · rw [if_pos hm] at hvx
        cases hvx
      · rw [if_neg hm] at hvx
        simp at hvx
  · intro content env fuel plen m hcl herr hbd hcp hrr htp hn hop
    have hnr : nextReader env m
        = (some GErr.missingContentRange,
           { m with openIdx := m.openIdx + 1, b := { m.b with reqRange := none } }) := by
      unfold nextReader
      dsimp only
      rw [if_neg (by omega)]
      dsimp only
      rw [hrr]
      dsimp only [Option.getD]
      obtain ⟨k, hk⟩ : ∃ k, m.b.n = k + 1 := ⟨m.b.n - 1, by omega⟩
      rw [hk]
      unfold retry
      rw [if_pos (hop m.openIdx)]
      dsimp only
      rw [if_pos rfl, ← hk]
    unfold Read
    dsimp only
    rw [if_neg (by simp [hcl]), herr]
    dsimp only
    rw [if_neg (by omega), if_neg (by omega), if_pos hbd, hnr]
    dsimp only
    rw [herr]

/-- Witness for C3 (amended): concrete seeks and a concrete failing reopen. -/
theorem C3_seek_back_to_zero_witness :
    ((Seek (Seek { cPos := 0, tPos := 3 } 2 Whence.seekStart).2.2 0
        Whence.seekStart).2.2.seeked = false)
    ∧ VerifyCopiedData { seeked := false } ≠ some GErr.verifySeeked
    ∧ Read [1, 2, 3] c3goodEnv 4
        { b := { tPos := 3 }, readIdx := 0, openIdx := 0, delivered := [] } 4
      = some (0, some GErr.missingContentRange,
          { b := { tPos := 3, reqRange := none }, readIdx := 0, openIdx := 1,
            delivered := [] }) :=
  ⟨(C3_seek_back_to_zero.1 { cPos := 0, tPos := 3 } 2 (by decide)).1,
   C3_seek_back_to_zero.2.1 { seeked := false } rfl,
   C3_seek_back_to_zero.2.2 [1, 2, 3] c3goodEnv 4 4
     { b := { tPos := 3 }, readIdx := 0, openIdx := 0, delivered := [] }
     rfl rfl rfl rfl rfl (by decide) (by decide) (fun _ => rfl)⟩

/-- The stream after opening `[7,8,9]` and seeking to position 1 (the active
body has been discarded, no sticky error is recorded). -/
def c4m0 : M := (SeekM (openMachine [7, 8, 9] 5 "") 1 Whence.seekStart).2.2

/-- The stream after the failing Read on `c4m0`: all five reopen attempts
failed, yet no sticky error was recorded. -/
def c4m1 : M :=
  { b := { etag := none, n := 5, reqRange := some 1, body := none, cPos := 1, tPos := 3,
           closed := false, seeked := true, err := none, md5acc := [] },
    readIdx := 0, openIdx := 5, delivered := [] }

/-- A cooperative environment for the second C4 read. -/
def c4goodEnv : Env :=
  { reads := fun k => if k = 0 then (5, RSig.ok) else (5, RSig.eofSig),
    opens := fun _ => true }

/-- C4 counterexample: a Read that surfaces the fatal reopen-failure error
("request failed after 5 attempts", a non-end-of-data error) does NOT record
it on the stream — the sticky error stays empty, and the very next Read (on a
recovered network) succeeds, delivering two bytes and the end-of-data signal
rather than returning the same error. -/
theorem C4_counterexample :
    Read [7, 8, 9] c2failEnv 5 c4m0 5 = some (0, some (GErr.requestFailed 5), c4m1)
    ∧ c4m1.b.err = none
    ∧ (Read [7, 8, 9] c4goodEnv 5 c4m1 5).map (fun r => (r.1, r.2.1))
        = some (2, some GErr.eof) := by
  refine ⟨?_, ?_, ?_⟩ <;> decide

/-- C4 (amended): once a fatal error is recorded as the sticky error, every
subsequent Read returns exactly that error with no state change; a Read never
rewrites the sticky error except to the very error it returns (errors
surfaced from the buffered read loop are recorded; guard errors and
lazy-reopen failures are returned without being recorded); and a Seek
preserves the sticky error while a position-changing in-range Seek discards
the active body. -/
theorem C4_sticky_error (content : List Nat) (env : Env) (fuel plen : Nat)
    (m : M) (e : GErr) (b : Body) (offset : Int) (w : Whence) :
    (m.b.closed = false → m.b.err = some e →
      Read content env fuel m plen = some (0, some e, m))
    ∧ (∀ res, Read content env fuel m plen = some res →
        res.2.2.b.err = m.b.err ∨ res.2.2.b.err = res.2.1)
    ∧ (Seek b offset w).2.2.err = b.err
    ∧ (0 ≤ seekPos b offset w → seekPos b offset w ≠ b.cPos →
        (Seek b offset w).2.2.body = none) := by
  refine ⟨?_, ?_, ?_, ?_⟩
  · intro hcl herr
    unfold Read
    dsimp only
    rw [if_neg (by simp [hcl]), herr]
  · intro res h
    exact Read_err h
  · unfold Seek
    dsimp only
    by_cases hneg : seekPos b offset w < 0
    · rw [if_pos hneg]
    · rw [if_neg hneg]
      by_cases hc : b.cPos = seekPos b offset w
      · rw [if_pos hc]
      · rw [if_neg hc]
        by_cases hz : seekPos b offset w = 0 <;> by_cases hb2 : b.body = none <;>
          simp [hz, hb2]
  · intro hpos hne
    unfold Seek
    dsimp only
    rw [if_neg (by omega), if_neg (fun hx => hne hx.symm)]
    by_cases hz : seekPos b offset w = 0 <;> by_cases hb2 : b.body = none <;>
      simp [hz, hb2]

/-- Witness for C4 (amended): a concrete sticky stream keeps returning its
recorded error; a concrete Seek preserves it while discarding the body. -/
theorem C4_sticky_error_witness :
    Read [7, 8, 9] c4goodEnv 5
      { b := { tPos := 3, err := some GErr.readErr }, readIdx := 0, openIdx := 0,
        delivered := [] } 5
      = some (0, some GErr.readErr,
          { b := { tPos := 3, err := some GErr.readErr }, readIdx := 0, openIdx := 0,
            delivered := [] })
    ∧ (Seek { tPos := 3, err := some GErr.readErr, body := some ⟨0⟩ } 2
        Whence.seekStart).2.2.err = some GErr.readErr
    ∧ (Seek { tPos := 3, err := some GErr.readErr, body := some ⟨0⟩ } 2
        Whence.seekStart).2.2.body = none :=
  ⟨(C4_sticky_error [7, 8, 9] c4goodEnv 5 5
      { b := { tPos := 3, err := some GErr.readErr }, readIdx := 0, openIdx := 0,
        delivered := [] } GErr.readErr
      { tPos := 3, err := some GErr.readErr, body := some ⟨0⟩ } 2 Whence.seekStart).1
      rfl rfl,
   (C4_sticky_error [7, 8, 9] c4goodEnv 5 5
      { b := { tPos := 3, err := some GErr.readErr }, readIdx := 0, openIdx := 0,
        delivered := [] } GErr.readErr
      { tPos := 3, err := some GErr.readErr, body := some ⟨0⟩ } 2 Whence.seekStart).2.2.1,
   (C4_sticky_error [7, 8, 9] c4goodEnv 5 5
      { b := { tPos := 3, err := some GErr.readErr }, readIdx := 0, openIdx := 0,
        delivered := [] } GErr.readErr
      { tPos := 3, err := some GErr.readErr, body := some ⟨0⟩ } 2 Whence.seekStart).2.2.2
      (by decide) (by decide)⟩

end Grab
